import Mathlib

set_option linter.unusedVariables false

/-! Verification development for the `docker_connect_sql_python` ETL pipeline.

The Python sources are shallowly embedded.  Every database-touching function
is modelled as a pure function from a failure oracle (an `Option Nat` giving
the index of the first fallible operation that raises an exception, `none`
when nothing raises) to the list of side effects it performs on its pyodbc
connection (`DbEvent`) together with two flags: `ok` (the success log line
was reached) and `raised` (an exception escaped to the caller).  Only the
first raising operation matters because every `except` clause in the source
aborts the remaining body, so an `Option Nat` oracle covers all behaviours.
-/

/-- Side effects observable on a pyodbc connection. -/
inductive DbEvent where
  | connect
  | execSql (sql : String)
  | execInsert (sql : String) (params : List String)
  | commit
  | close
  deriving DecidableEq

/-- Outcome of one modelled operation: the connection events it performed, in
order, whether its success log line was reached, and whether an exception
escaped to the caller. -/
structure OpResult where
  events : List DbEvent
  ok : Bool
  raised : Bool
  deriving DecidableEq

/-- The three DROP scripts of `manage_tables`, in source order. -/
def dropFiles : List String :=
  ["sql_files/table_management/drop_payment_summary_table.sql",
   "sql_files/table_management/drop_duration_summary_table.sql",
   "sql_files/table_management/drop_profitable_actors_table.sql"]

/-- The three CREATE scripts of `manage_tables`, in source order. -/
def createFiles : List String :=
  ["sql_files/table_management/create_payment_summary_table.sql",
   "sql_files/table_management/create_duration_summary_table.sql",
   "sql_files/table_management/create_profitable_actors_table.sql"]

/-- One `execute_sql_file` loop of `manage_tables`: for each path, open and
read the file (fallible operation `i`), then `cursor.execute` its text
(fallible operation `i+1`).  `ft` maps a path to the text of the file.
Returns the events performed and whether the whole phase succeeded. -/
def execPhase (ft : String → String) (paths : List String) (i : Nat)
    (fo : Option Nat) : List DbEvent × Bool :=
  match paths with
  | [] => ([], true)
  | p :: ps =>
    if fo = some i then ([], false)
    else if fo = some (i + 1) then ([], false)
    else
      (DbEvent.execSql (ft p) :: (execPhase ft ps (i + 2) fo).1,
       (execPhase ft ps (i + 2) fo).2)

/-- Events of `run_etl_as_script.manage_tables` between connect and close:
three drops, a commit, three creates, a second commit.  Fallible operation
indices: reads and executes of the drop files are 1..6, the first commit is
7, reads and executes of the create files are 8..13, the second commit 14. -/
def mtScriptCore (ft : String → String) (fo : Option Nat) :
    List DbEvent × Bool :=
  if (execPhase ft dropFiles 1 fo).2 = false then
    ((execPhase ft dropFiles 1 fo).1, false)
  else if fo = some 7 then
    ((execPhase ft dropFiles 1 fo).1, false)
  else if (execPhase ft createFiles 8 fo).2 = false then
    ((execPhase ft dropFiles 1 fo).1 ++
      DbEvent.commit :: (execPhase ft createFiles 8 fo).1, false)
  else if fo = some 14 then
    ((execPhase ft dropFiles 1 fo).1 ++
      DbEvent.commit :: (execPhase ft createFiles 8 fo).1, false)
  else
    ((execPhase ft dropFiles 1 fo).1 ++
      DbEvent.commit :: (execPhase ft createFiles 8 fo).1 ++
      [DbEvent.commit], true)

/-- `run_etl_as_script.manage_tables`: connect (fallible operation 0), run
the two phases with a commit after each, and always close the connection in
the `finally` block whenever it was opened.  `pyodbc.Error` and
`FileNotFoundError` are both caught and logged, so nothing is re-raised. -/
def manageTablesScript (ft : String → String) (fo : Option Nat) : OpResult :=
  if fo = some 0 then ⟨[], false, false⟩
  else
    ⟨DbEvent.connect :: (mtScriptCore ft fo).1 ++ [DbEvent.close],
     (mtScriptCore ft fo).2, false⟩

/-- Events of `etl_pipeline.database_operations.manage_tables` between
connect and close: all six scripts in dict order (drops then creates),
followed by a single commit.  Fallible operation indices: reads and executes
are 1..12, the commit is 13. -/
def mtPackageCore (ft : String → String) (fo : Option Nat) :
    List DbEvent × Bool :=
  if (execPhase ft (dropFiles ++ createFiles) 1 fo).2 = false then
    ((execPhase ft (dropFiles ++ createFiles) 1 fo).1, false)
  else if fo = some 13 then
    ((execPhase ft (dropFiles ++ createFiles) 1 fo).1, false)
  else
    ((execPhase ft (dropFiles ++ createFiles) 1 fo).1 ++ [DbEvent.commit],
     true)

/-- `etl_pipeline.database_operations.manage_tables`: connect (fallible
operation 0), execute all six scripts, commit once, and always close the
connection in the `finally` block whenever it was opened.  The bare
`except Exception` catches everything, so nothing is re-raised. -/
def manageTablesPackage (ft : String → String) (fo : Option Nat) : OpResult :=
  if fo = some 0 then ⟨[], false, false⟩
  else
    ⟨DbEvent.connect :: (mtPackageCore ft fo).1 ++ [DbEvent.close],
     (mtPackageCore ft fo).2, false⟩

/-- The INSERT statement built by `write_dataframe_to_db` for a row of `n`
values: parameter placeholders joined by commas and the declared column
names joined by commas. -/
def insertSql (table : String) (cols : List String) (n : Nat) : String :=
  ("INSERT INTO ") ++ table ++ (" (") ++
    String.intercalate (", ") cols ++ (") VALUES (") ++
    String.intercalate (", ") (List.replicate n ("?")) ++ (")")

/-- The per-row insert loop of `write_dataframe_to_db`.  Row `k` (0-based) is
fallible operation `i + k`; the first raising execute aborts the loop with no
event for the raising row and no events for the remaining rows. -/
def insertEvents (table : String) (cols : List String) :
    List (List String) → Nat → Option Nat → List DbEvent × Bool
  | [], _, _ => ([], true)
  | r :: rs, i, fo =>
    if fo = some i then ([], false)
    else
      (DbEvent.execInsert (insertSql table cols r.length) r ::
        (insertEvents table cols rs (i + 1) fo).1,
       (insertEvents table cols rs (i + 1) fo).2)

/-- A pandas DataFrame as consumed by `write_dataframe_to_db`: ordered column
names and ordered rows of cell string representations. -/
structure DataFrame where
  cols : List String
  rows : List (List String)
  deriving DecidableEq

/-- Events of `write_dataframe_to_db` between connect and close: one insert
per row (fallible operations 1..rows.length) and, if all inserts succeeded,
a single commit (fallible operation rows.length + 1). -/
def writeDfCore (df : DataFrame) (table : String) (fo : Option Nat) :
    List DbEvent × Bool :=
  if (insertEvents table df.cols df.rows 1 fo).2 = false then
    ((insertEvents table df.cols df.rows 1 fo).1, false)
  else if fo = some (df.rows.length + 1) then
    ((insertEvents table df.cols df.rows 1 fo).1, false)
  else
    ((insertEvents table df.cols df.rows 1 fo).1 ++ [DbEvent.commit], true)

/-- `write_dataframe_to_db` (identical control flow in
`etl_pipeline.database_operations` and `run_etl_as_script`): connect
(fallible operation 0), insert every row, commit once after all rows, and
always close the connection in the `finally` block whenever it was opened.
Errors are caught and logged, so nothing is re-raised. -/
def writeDfToDb (df : DataFrame) (table : String) (fo : Option Nat) :
    OpResult :=
  if fo = some 0 then ⟨[], false, false⟩
  else
    ⟨DbEvent.connect :: (writeDfCore df table fo).1 ++ [DbEvent.close],
     (writeDfCore df table fo).2, false⟩

/-- The insert events that correspond to a list of rows, in order. -/
def insertEventList (table : String) (cols : List String)
    (rows : List (List String)) : List DbEvent :=
  rows.map (fun r => DbEvent.execInsert (insertSql table cols r.length) r)

/-- Recognizer for insert events. -/
def isInsertEvent : DbEvent → Bool
  | DbEvent.execInsert _ _ => true
  | _ => false

/-- Transactional semantics of one connection's event list on the destination
table: inserts accumulate in the uncommitted transaction, a commit makes the
pending rows durable, and closing the connection (or reaching the end of the
trace) discards whatever is still pending, per pyodbc's default
autocommit-off rollback-on-close behaviour. -/
def finalTableAux : List DbEvent → List (List String) → List (List String) →
    List (List String)
  | [], dur, _ => dur
  | DbEvent.execInsert _ ps :: es, dur, pend => finalTableAux es dur (pend ++ [ps])
  | DbEvent.commit :: es, dur, pend => finalTableAux es (dur ++ pend) []
  | _ :: es, dur, pend => finalTableAux es dur pend

/-- Durable contents of the destination table after a trace, starting from
initial contents `init`. -/
def finalTable (init : List (List String)) (events : List DbEvent) :
    List (List String) :=
  finalTableAux events init []

/-- `etl_pipeline.data_processing.execute_query`: read the file (fallible
operation 0, before any connection exists), connect (1), execute (2), fetch
all rows (3), return them.  There is no try/finally in this function: every
error propagates to the caller and the connection is never closed.
`resultRows` stands for whatever the database returns for the query. -/
def executeQuery (ft : String → String) (path : String) (fo : Option Nat)
    (resultRows : List (List String)) :
    OpResult × Option (List (List String)) :=
  if fo = some 0 then (⟨[], false, true⟩, none)
  else if fo = some 1 then (⟨[], false, true⟩, none)
  else if fo = some 2 then (⟨[DbEvent.connect], false, true⟩, none)
  else if fo = some 3 then
    (⟨[DbEvent.connect, DbEvent.execSql (ft path)], false, true⟩, none)
  else
    (⟨[DbEvent.connect, DbEvent.execSql (ft path)], true, false⟩,
     some resultRows)

/-- A pandas DataFrame whose cells may be NaN (`none`), as produced by the
`pd.DataFrame` constructor on raw row tuples. -/
structure PandasFrame where
  cols : List String
  rows : List (List (Option String))
  deriving DecidableEq

/-- Column count of `pd.DataFrame(rows)`: the widest row (0 when there are no
rows). -/
def dfWidth (rows : List (List String)) : Nat :=
  rows.foldr (fun r m => max r.length m) 0

/-- A row padded with NaN to the frame width, as pandas does for short
rows. -/
def padRow (n : Nat) (r : List String) : List (Option String) :=
  r.map some ++ List.replicate (n - r.length) none

/-- The script-variant construction `df = pd.DataFrame(rows)` followed by
`df.columns = cols`: the assignment raises ValueError (`none`) unless the
declared column list has exactly the frame's width. -/
def mkDfSetCols (rows : List (List String)) (cols : List String) :
    Option PandasFrame :=
  if cols.length = dfWidth rows then
    some ⟨cols, rows.map (padRow (dfWidth rows))⟩
  else none

/-- The package-variant construction `pd.DataFrame(rows, columns=cols)`: with
no rows it yields an empty frame carrying the declared columns; otherwise it
raises ValueError (`none`) unless the declared column list has exactly the
data width. -/
def mkDfWithCols (rows : List (List String)) (cols : List String) :
    Option PandasFrame :=
  if rows.isEmpty then some ⟨cols, []⟩
  else if cols.length = dfWidth rows then
    some ⟨cols, rows.map (padRow (dfWidth rows))⟩
  else none

/-- Declared column schema of the payments query. -/
def paymentCols : List String :=
  ["Records", "Minimum", "Maximum", "Total", "Average"]

/-- `run_etl_as_script.calculate_payments`: connect (fallible operation 0),
read the SQL file (1 — raising `FileNotFoundError`, which the
`except pyodbc.Error` clause does not catch, so it escapes after the
`finally` closes the connection), execute (2), fetch (3), then build the
DataFrame and assign the five payment column names.  On every caught
`pyodbc.Error` path the variable `payments_summary` is never assigned, so
the final `return payments_summary` raises `NameError`: `raised` is true on
every failure path. -/
def calcPaymentsScript (ft : String → String) (path : String)
    (fo : Option Nat) (resultRows : List (List String)) :
    OpResult × Option PandasFrame :=
  if fo = some 0 then (⟨[], false, true⟩, none)
  else if fo = some 1 then
    (⟨[DbEvent.connect, DbEvent.close], false, true⟩, none)
  else if fo = some 2 then
    (⟨[DbEvent.connect, DbEvent.close], false, true⟩, none)
  else if fo = some 3 then
    (⟨[DbEvent.connect, DbEvent.execSql (ft path), DbEvent.close], false,
      true⟩, none)
  else
    match mkDfSetCols resultRows paymentCols with
    | some df =>
      (⟨[DbEvent.connect, DbEvent.execSql (ft path), DbEvent.close], true,
        false⟩, some df)
    | none =>
      (⟨[DbEvent.connect, DbEvent.execSql (ft path), DbEvent.close], false,
        true⟩, none)

/-! Filesystem model for `clear_folder`.  A directory tree of named entries;
paths are lists of name components.  `os.unlink` and `shutil.rmtree` both
remove the binding at a path without following a final symbolic link (rmtree
refuses symlinks and unlink never follows), so both are modelled by
`removeAt`; the branch taken by `clear_folder` is still recorded faithfully
in `clearStep`. -/

/-- A filesystem node: a regular file, a symbolic link holding a target path,
or a directory with an ordered list of named children. -/
inductive Node where
  | file : Node
  | link : List String → Node
  | dir : List (String × Node) → Node

/-- Resolve a path to the node it names, without following symbolic links. -/
def fsLookup : Node → List String → Option Node
  | n, [] => some n
  | Node.dir es, name :: rest =>
    match es.find? (fun e => e.1 == name) with
    | some e => fsLookup e.2 rest
    | none => none
  | _, _ :: _ => none

/-- Remove the binding at a path (the effect of `os.unlink` on a file or
link, and of `shutil.rmtree` on a directory: the named entry disappears from
its parent together with everything below it). -/
def removeAt : Node → List String → Node
  | n, [] => n
  | n, name :: rest =>
    match n with
    | Node.dir es =>
      match rest with
      | [] => Node.dir (es.filter (fun e => e.1 != name))
      | _ :: _ =>
        Node.dir (es.map (fun e =>
          if e.1 = name then (e.1, removeAt e.2 rest) else e))
    | _ => n

/-- The `os.listdir` snapshot taken once at the start of `clear_folder`. -/
def listdir (root : Node) (folder : List String) : List String :=
  match fsLookup root folder with
  | some (Node.dir es) => es.map Prod.fst
  | _ => []

/-- One iteration of the `clear_folder` loop on item `name`: regular files
and symbolic links (`os.path.isfile(p) or os.path.islink(p)`, and a link is
always `islink` whatever it points to) are `os.unlink`ed; directories
(`elif os.path.isdir(p)`) are `shutil.rmtree`d; anything no longer present
matches no branch and is skipped. -/
def clearStep (folder : List String) (root : Node) (name : String) : Node :=
  match fsLookup root (folder ++ [name]) with
  | some Node.file => removeAt root (folder ++ [name])
  | some (Node.link _) => removeAt root (folder ++ [name])
  | some (Node.dir _) => removeAt root (folder ++ [name])
  | none => root

/-- `clear_folder`: delete every direct child of the target folder, leaving
the folder itself. -/
def clear_folder (root : Node) (folder : List String) : Node :=
  (listdir root folder).foldl (clearStep folder) root

/-- Boolean path-prefix test: `pathUnder p q` holds when `p` is a prefix of
`q`, i.e. `q` lies at or below `p`. -/
def pathUnder : List String → List String → Bool
  | [], _ => true
  | _ :: _, [] => false
  | a :: ps, b :: qs => a == b && pathUnder ps qs

/-! Text-file model for `write_local_txt_output`.  File contents are lists of
characters; `dataframe.to_csv(path, sep='\t', index=False)` writes the
tab-joined header line and one tab-joined line per row, each line terminated
by a newline, quoting any field that contains the separator, a quote, or a
line-terminator character (csv QUOTE_MINIMAL). -/

/-- Split a character list at every occurrence of `sep`, like Python
`str.split`.  The result always has one more piece than there are
separators. -/
def splitOnChar (sep : Char) : List Char → List (List Char)
  | [] => [[]]
  | c :: cs =>
    match splitOnChar sep cs with
    | [] => [[]]
    | p :: ps => if c = sep then [] :: p :: ps else (c :: p) :: ps

/-- Join character lists with a separator, like `sep.join` in Python. -/
def joinChar (sep : Char) : List (List Char) → List Char
  | [] => []
  | [x] => x
  | x :: y :: xs => x ++ sep :: joinChar sep (y :: xs)

/-- Concatenate lines, terminating every line (the last included) with a
newline, as `to_csv` does. -/
def unlinesChar (ls : List (List Char)) : List Char :=
  ls.foldr (fun l acc => l ++ '\n' :: acc) []

/-- One serialized field under csv QUOTE_MINIMAL with a tab separator: a
field containing a tab, newline, carriage return or double quote is wrapped
in double quotes with inner quotes doubled; any other field is written
verbatim. -/
def csvField (s : List Char) : List Char :=
  if '\t' ∈ s ∨ '\n' ∈ s ∨ '\r' ∈ s ∨ '"' ∈ s then
    '"' :: s.flatMap (fun c => if c = '"' then ['"', '"'] else [c]) ++ ['"']
  else s

/-- One serialized line: the fields of one row joined by tabs. -/
def csvLine (cells : List (List Char)) : List Char :=
  joinChar '\t' (cells.map csvField)

/-- The full file content written by `to_csv(sep='\t', index=False)`: header
line then one line per row. -/
def toCsvContent (header : List (List Char))
    (rows : List (List (List Char))) : List Char :=
  unlinesChar (csvLine header :: rows.map csvLine)

/-- The lines of a text file as re-read by a consumer: split on newline and
drop the empty piece a trailing newline produces. -/
def fileLines (content : List Char) : List (List Char) :=
  if (splitOnChar '\n' content).getLast? = some [] then
    (splitOnChar '\n' content).dropLast
  else splitOnChar '\n' content

/-- Re-reading a written file per the round-trip property: drop the header
line and split every remaining line on tab. -/
def readBack (content : List Char) : List (List (List Char)) :=
  ((fileLines content).drop 1).map (splitOnChar '\t')

/-- A Tabular Result as handed to the file writer: header cell texts and row
cell texts. -/
structure TxtFrame where
  header : List (List Char)
  rows : List (List (List Char))

/-- `write_local_txt_output`: ensure the folder exists, build the path with
`os.path.join`, write the frame with `to_csv(sep='\t', index=False)` and
return the path; any error is caught and turned into `None`.  `ioOk` is the
oracle for the fallible filesystem work. -/
def write_local_txt_output (df : TxtFrame) (folderPath fileName : String)
    (ioOk : Bool) : Option (String × List Char) :=
  if ioOk then
    some (folderPath ++ ("/") ++ fileName, toCsvContent df.header df.rows)
  else none

/-- A cell text is clean when serializing it cannot trigger csv quoting:
it contains no tab, newline, carriage return or double quote. -/
def cleanCell (s : List Char) : Prop :=
  ¬('\t' ∈ s ∨ '\n' ∈ s ∨ '\r' ∈ s ∨ '"' ∈ s)

instance (s : List Char) : Decidable (cleanCell s) := by
  unfold cleanCell
  infer_instance
/-- A trace closes its connection properly when either the connection was
never opened (the connect call itself raised) or the trace starts with the
connect and its final event is the close. -/
def ClosedProperly (evts : List DbEvent) : Prop :=
  evts = [] ∨ ∃ mid, evts = DbEvent.connect :: mid ++ [DbEvent.close]

/-- Header cell texts of the payments summary. -/
def paymentHeaderCells : List (List Char) :=
  [("Records").toList, ("Minimum").toList, ("Maximum").toList,
   ("Total").toList, ("Average").toList]

/-- Row cell texts of the concrete payments scenario, the string
representations pandas writes for (500, 0.99, 11.99, 4955.01, 9.91). -/
def paymentRowCells : List (List Char) :=
  [("500").toList, ("0.99").toList, ("11.99").toList,
   ("4955.01").toList, ("9.91").toList]

/-- Children of the sample reports folder used as concrete inputs: a regular
file, a symbolic link to a sibling directory, and a subdirectory. -/
def sampleEntries : List (String × Node) :=
  [("a.txt", Node.file), ("ln", Node.link ["home", "d"]),
   ("sub", Node.dir [("x", Node.file)])]

/-- A sample filesystem: a home directory holding the reports folder and a
sibling directory that the symbolic link inside reports points to. -/
def sampleRoot : Node :=
  Node.dir [("home", Node.dir
    [("reports", Node.dir sampleEntries),
     ("d", Node.dir [("y", Node.file)])])]



lemma closed_shape (mid : List DbEvent) :
    ClosedProperly (DbEvent.connect :: mid ++ [DbEvent.close]) :=
  Or.inr ⟨mid, rfl⟩

/-- C1 (amended): Schema Reset (both `manage_tables` variants), Tabular
Writer (DB) (`write_dataframe_to_db`) and the script-variant Query Runner
(`calculate_payments`) close the connection they open in a guaranteed
`finally` step on every success and error path before returning; the
package-variant Query Runner (`execute_query` in
`etl_pipeline/data_processing.py`) opens a connection and closes it on no
path, so the claim fails for that operation. -/
theorem connection_cleanup_c1 :
    (∀ ft fo, ClosedProperly (manageTablesScript ft fo).events) ∧
    (∀ ft fo, ClosedProperly (manageTablesPackage ft fo).events) ∧
    (∀ df table fo, ClosedProperly (writeDfToDb df table fo).events) ∧
    (∀ ft path fo rs,
      ClosedProperly (calcPaymentsScript ft path fo rs).1.events) ∧
    (∀ ft path fo rs,
      DbEvent.close ∉ (executeQuery ft path fo rs).1.events) := by
  refine ⟨?_, ?_, ?_, ?_, ?_⟩
  · intro ft fo
    unfold manageTablesScript
    by_cases h : fo = some 0
    · rw [if_pos h]; exact Or.inl rfl
    · rw [if_neg h]; exact closed_shape _
  · intro ft fo
    unfold manageTablesPackage
    by_cases h : fo = some 0
    · rw [if_pos h]; exact Or.inl rfl
    · rw [if_neg h]; exact closed_shape _
  · intro df table fo
    unfold writeDfToDb
    by_cases h : fo = some 0
    · rw [if_pos h]; exact Or.inl rfl
    · rw [if_neg h]; exact closed_shape _
  · intro ft path fo rs
    unfold calcPaymentsScript
    by_cases h0 : fo = some 0
    · rw [if_pos h0]; exact Or.inl rfl
    rw [if_neg h0]
    by_cases h1 : fo = some 1
    · rw [if_pos h1]; exact closed_shape []
    rw [if_neg h1]
    by_cases h2 : fo = some 2
    · rw [if_pos h2]; exact closed_shape []
    rw [if_neg h2]
    by_cases h3 : fo = some 3
    · rw [if_pos h3]; exact closed_shape [DbEvent.execSql (ft path)]
    rw [if_neg h3]
    cases hm : mkDfSetCols rs paymentCols with
    | none => exact closed_shape [DbEvent.execSql (ft path)]
    | some df => exact closed_shape [DbEvent.execSql (ft path)]
  · intro ft path fo rs
    unfold executeQuery
    by_cases h0 : fo = some 0
    · rw [if_pos h0]; simp
    rw [if_neg h0]
    by_cases h1 : fo = some 1
    · rw [if_pos h1]; simp
    rw [if_neg h1]
    by_cases h2 : fo = some 2
    · rw [if_pos h2]; simp
    rw [if_neg h2]
    by_cases h3 : fo = some 3
    · rw [if_pos h3]; simp
    · rw [if_neg h3]; simp

/-- C1 counterexample: on its success path `execute_query` performs the
connect event and never a close event, so the connection it opens is not
closed in a guaranteed cleanup step before the operation returns. -/
theorem c1_counterexample :
    DbEvent.connect ∈
      (executeQuery (fun s => s) ("sql_files/queries/payments.sql") none
        []).1.events ∧
    DbEvent.close ∉
      (executeQuery (fun s => s) ("sql_files/queries/payments.sql") none
        []).1.events := by
  constructor
  · simp [executeQuery]
  · simp [executeQuery]

/-- C2 counterexample: the Query Runner (`execute_query`) called with a
path to a nonexistent SQL file raises the file-not-found error uncaught to
its caller, contradicting the claim that the error is caught at the
component boundary and not re-raised. -/
theorem c2_counterexample :
    (executeQuery (fun s => s) ("sql_files/queries/missing.sql") (some 0)
      []).1.raised = true := rfl

/-- C2 (amended): given a nonexistent SQL file path the package
`execute_query` raises to its caller before any connection is opened, and
the script `calculate_payments` — whose `except` clause catches only
`pyodbc.Error` — lets the file-not-found error escape uncaught while its
`finally` block still closes the connection; only Schema Reset
(`manage_tables`) catches a missing SQL file without re-raising. -/
theorem query_runner_missing_file_c2 :
    (executeQuery (fun s => s) ("sql_files/queries/payments.sql") (some 0)
      []).1.raised = true ∧
    (executeQuery (fun s => s) ("sql_files/queries/payments.sql") (some 0)
      []).1.events = [] ∧
    (calcPaymentsScript (fun s => s) ("sql_files/queries/payments.sql")
      (some 1) []).1.raised = true ∧
    (calcPaymentsScript (fun s => s) ("sql_files/queries/payments.sql")
      (some 1) []).1.events = [DbEvent.connect, DbEvent.close] ∧
    (manageTablesScript (fun s => s) (some 1)).raised = false :=
  ⟨rfl, rfl, rfl, rfl, rfl⟩

/-- C3 counterexample: the package-variant `manage_tables`
(`etl_pipeline/database_operations.py`), on its all-success trace, executes
all six scripts and then commits exactly once — there is no commit between
the drops and the creates, contradicting the two-phase-commit claim for
that variant. -/
theorem c3_counterexample :
    (manageTablesPackage (fun s => s) none).events =
      [DbEvent.connect,
       DbEvent.execSql ("sql_files/table_management/drop_payment_summary_table.sql"),
       DbEvent.execSql ("sql_files/table_management/drop_duration_summary_table.sql"),
       DbEvent.execSql ("sql_files/table_management/drop_profitable_actors_table.sql"),
       DbEvent.execSql ("sql_files/table_management/create_payment_summary_table.sql"),
       DbEvent.execSql ("sql_files/table_management/create_duration_summary_table.sql"),
       DbEvent.execSql ("sql_files/table_management/create_profitable_actors_table.sql"),
       DbEvent.commit, DbEvent.close] ∧
    (manageTablesPackage (fun s => s) none).events.count DbEvent.commit
      = 1 := by
  exact ⟨rfl, by decide⟩

/-- C3 (amended): the script-variant `manage_tables` opens one connection
and executes, in order, the three DROP scripts, a commit, the three CREATE
scripts and a second commit; the package variant executes the six scripts
in the same order but commits exactly once, after the creates. -/
theorem schema_reset_commits_c3 : ∀ ft : String → String,
    (manageTablesScript ft none).events =
      [DbEvent.connect,
       DbEvent.execSql (ft ("sql_files/table_management/drop_payment_summary_table.sql")),
       DbEvent.execSql (ft ("sql_files/table_management/drop_duration_summary_table.sql")),
       DbEvent.execSql (ft ("sql_files/table_management/drop_profitable_actors_table.sql")),
       DbEvent.commit,
       DbEvent.execSql (ft ("sql_files/table_management/create_payment_summary_table.sql")),
       DbEvent.execSql (ft ("sql_files/table_management/create_duration_summary_table.sql")),
       DbEvent.execSql (ft ("sql_files/table_management/create_profitable_actors_table.sql")),
       DbEvent.commit, DbEvent.close] ∧
    (manageTablesPackage ft none).events =
      [DbEvent.connect,
       DbEvent.execSql (ft ("sql_files/table_management/drop_payment_summary_table.sql")),
       DbEvent.execSql (ft ("sql_files/table_management/drop_duration_summary_table.sql")),
       DbEvent.execSql (ft ("sql_files/table_management/drop_profitable_actors_table.sql")),
       DbEvent.execSql (ft ("sql_files/table_management/create_payment_summary_table.sql")),
       DbEvent.execSql (ft ("sql_files/table_management/create_duration_summary_table.sql")),
       DbEvent.execSql (ft ("sql_files/table_management/create_profitable_actors_table.sql")),
       DbEvent.commit, DbEvent.close] :=
  fun ft => ⟨rfl, rfl⟩

/-- C7: Tabular Writer (DB) given an empty Tabular Result performs zero
INSERT executions, still reaches its single commit and success log, raises
nothing, and leaves the destination table's durable contents unchanged. -/
theorem write_db_empty_c7 (cols : List String) (table : String)
    (db : List (List String)) :
    (writeDfToDb ⟨cols, []⟩ table none).events =
      [DbEvent.connect, DbEvent.commit, DbEvent.close] ∧
    (writeDfToDb ⟨cols, []⟩ table none).events.countP isInsertEvent = 0 ∧
    (writeDfToDb ⟨cols, []⟩ table none).ok = true ∧
    (writeDfToDb ⟨cols, []⟩ table none).raised = false ∧
    finalTable db (writeDfToDb ⟨cols, []⟩ table none).events = db := by
  refine ⟨rfl, rfl, rfl, rfl, ?_⟩
  show finalTableAux [DbEvent.connect, DbEvent.commit, DbEvent.close] db [] = db
  simp [finalTableAux]

lemma insertEvents_abort (table : String) (cols : List String) :
    ∀ (rows : List (List String)) (i j : Nat), j < rows.length →
      insertEvents table cols rows i (some (i + j)) =
        (insertEventList table cols (rows.take j), false) := by
  intro rows
  induction rows with
  | nil => intro i j hj; simp at hj
  | cons r rs ih =>
    intro i j hj
    cases j with
    | zero => simp [insertEvents, insertEventList]
    | succ j =>
      have hj' : j < rs.length := by simp at hj; omega
      have hne : ¬(some (i + (j + 1)) = some i) := by simp
      rw [insertEvents, if_neg hne]
      have heq : i + (j + 1) = (i + 1) + j := by omega
      rw [heq, ih (i + 1) j hj']
      simp [insertEventList]

lemma commit_not_mem_insertEventList (table : String) (cols : List String)
    (rows : List (List String)) :
    DbEvent.commit ∉ insertEventList table cols rows := by
  simp [insertEventList]

lemma finalTableAux_no_commit :
    ∀ (es : List DbEvent) (dur pend : List (List String)),
      DbEvent.commit ∉ es → finalTableAux es dur pend = dur := by
  intro es
  induction es with
  | nil => intro dur pend h; rfl
  | cons e es ih =>
    intro dur pend h
    have he : DbEvent.commit ∉ es := fun hc => h (List.mem_cons_of_mem _ hc)
    have hne : e ≠ DbEvent.commit := fun hc => h (hc ▸ List.mem_cons_self _ _)
    cases e with
    | connect => simpa [finalTableAux] using ih dur pend he
    | execSql s => simpa [finalTableAux] using ih dur pend he
    | execInsert s ps => simpa [finalTableAux] using ih dur (pend ++ [ps]) he
    | commit => exact absurd rfl hne
    | close => simpa [finalTableAux] using ih dur pend he

/-- C8: when the INSERT for row `j` raises, `write_dataframe_to_db`
executes exactly the inserts of the rows before `j` and attempts no
further ones, returns without re-raising, performs no commit, and — the
single commit coming only after all rows — leaves the destination table's
durable contents unchanged. -/
theorem write_db_abort_c8 (df : DataFrame) (table : String)
    (db : List (List String)) (j : Nat) (hj : j < df.rows.length) :
    (writeDfToDb df table (some (j + 1))).events =
      DbEvent.connect ::
        insertEventList table df.cols (df.rows.take j) ++ [DbEvent.close] ∧
    (writeDfToDb df table (some (j + 1))).ok = false ∧
    (writeDfToDb df table (some (j + 1))).raised = false ∧
    DbEvent.commit ∉ (writeDfToDb df table (some (j + 1))).events ∧
    finalTable db (writeDfToDb df table (some (j + 1))).events = db := by
  have h0 : ¬(some (j + 1) = some (0 : Nat)) := by simp
  have hcore := insertEvents_abort table df.cols df.rows 1 j (by omega)
  have h1j : (1 : Nat) + j = j + 1 := by omega
  rw [h1j] at hcore
  have hevents : (writeDfToDb df table (some (j + 1))).events =
      DbEvent.connect ::
        insertEventList table df.cols (df.rows.take j) ++ [DbEvent.close] := by
    unfold writeDfToDb writeDfCore
    rw [if_neg h0, hcore]
    simp
  have hnc : DbEvent.commit ∉ (writeDfToDb df table (some (j + 1))).events := by
    rw [hevents]
    intro hmem
    rcases List.mem_cons.mp hmem with h | h
    · exact absurd h (by simp)
    rcases List.mem_append.mp h with h | h
    · exact commit_not_mem_insertEventList _ _ _ h
    · simp at h
  have hok : (writeDfToDb df table (some (j + 1))).ok = false := by
    unfold writeDfToDb writeDfCore
    rw [if_neg h0, hcore]
    simp
  have hraised : (writeDfToDb df table (some (j + 1))).raised = false := by
    unfold writeDfToDb
    rw [if_neg h0]
  exact ⟨hevents, hok, hraised, hnc,
    by rw [hevents] at hnc ⊢; exact finalTableAux_no_commit _ db [] hnc⟩

/-- Witness for C8 on a concrete two-row frame whose second insert
raises. -/
theorem write_db_abort_c8_witness :
    (1 < (DataFrame.mk ["A"] [["1"], ["2"]]).rows.length) ∧
    ((writeDfToDb ⟨["A"], [["1"], ["2"]]⟩ ("t") (some 2)).events =
      DbEvent.connect ::
        insertEventList ("t") ["A"]
          ((DataFrame.mk ["A"] [["1"], ["2"]]).rows.take 1) ++
        [DbEvent.close] ∧
    (writeDfToDb ⟨["A"], [["1"], ["2"]]⟩ ("t") (some 2)).ok = false ∧
    (writeDfToDb ⟨["A"], [["1"], ["2"]]⟩ ("t") (some 2)).raised = false ∧
    DbEvent.commit ∉ (writeDfToDb ⟨["A"], [["1"], ["2"]]⟩ ("t") (some 2)).events ∧
    finalTable [["z"]] (writeDfToDb ⟨["A"], [["1"], ["2"]]⟩ ("t") (some 2)).events
      = [["z"]]) :=
  ⟨by decide, write_db_abort_c8 ⟨["A"], [["1"], ["2"]]⟩ ("t") [["z"]] 1 (by decide)⟩

lemma dfWidth_le (rows : List (List String)) :
    ∀ r ∈ rows, r.length ≤ dfWidth rows := by
  induction rows with
  | nil => intro r hr; simp at hr
  | cons a rs ih =>
    intro r hr
    rcases List.mem_cons.mp hr with h | h
    · subst h; simp [dfWidth]
    · exact le_trans (ih r h) (by simp [dfWidth])

lemma dfWidth_const (m : Nat) :
    ∀ rows : List (List String), rows ≠ [] → (∀ r ∈ rows, r.length = m) →
      dfWidth rows = m := by
  intro rows
  induction rows with
  | nil => intro h; exact absurd rfl h
  | cons a rs ih =>
    intro _ hall
    have ha : a.length = m := hall a (List.mem_cons_self _ _)
    cases rs with
    | nil => show max a.length 0 = m; simp [ha]
    | cons b bs =>
      have hrec : dfWidth (b :: bs) = m :=
        ih (by simp) (fun r hr => hall r (List.mem_cons_of_mem _ hr))
      show max a.length (dfWidth (b :: bs)) = m
      rw [ha, hrec, Nat.max_self]

lemma padRow_length (n : Nat) (r : List String) (h : r.length ≤ n) :
    (padRow n r).length = n := by
  simp [padRow]
  omega

/-- C6: a Tabular Result built by either `calculate_payments` variant from
rows of uniform width has every row at exactly the declared column-schema
arity, and a mismatch between the fetched rows' width and the declared
schema makes the construction fail (ValueError, modelled as `none`) rather
than produce a malformed frame. -/
theorem tabular_result_arity_c6 (rows : List (List String))
    (cols : List String) (m : Nat) (hm : ∀ r ∈ rows, r.length = m) :
    (∀ df, mkDfSetCols rows cols = some df →
      ∀ r ∈ df.rows, r.length = cols.length) ∧
    (∀ df, mkDfWithCols rows cols = some df →
      ∀ r ∈ df.rows, r.length = cols.length) ∧
    (rows ≠ [] → m ≠ cols.length →
      mkDfSetCols rows cols = none ∧ mkDfWithCols rows cols = none) := by
  refine ⟨?_, ?_, ?_⟩
  · intro df h r hr
    unfold mkDfSetCols at h
    by_cases hw : cols.length = dfWidth rows
    · rw [if_pos hw] at h
      cases h
      rcases List.mem_map.mp hr with ⟨r0, hr0, rfl⟩
      rw [padRow_length _ _ (dfWidth_le rows r0 hr0)]
      exact hw.symm
    · rw [if_neg hw] at h; exact absurd h (by simp)
  · intro df h r hr
    unfold mkDfWithCols at h
    by_cases he : rows.isEmpty
    · rw [if_pos he] at h; cases h; simp at hr
    rw [if_neg he] at h
    by_cases hw : cols.length = dfWidth rows
    · rw [if_pos hw] at h
      cases h
      rcases List.mem_map.mp hr with ⟨r0, hr0, rfl⟩
      rw [padRow_length _ _ (dfWidth_le rows r0 hr0)]
      exact hw.symm
    · rw [if_neg hw] at h; exact absurd h (by simp)
  · intro hne hnm
    have hw : dfWidth rows = m := dfWidth_const m rows hne hm
    have hcw : ¬(cols.length = dfWidth rows) := by
      rw [hw]; exact fun hc => hnm hc.symm
    have hie : rows.isEmpty = false := by
      cases rows with
      | nil => exact absurd rfl hne
      | cons a rs => rfl
    constructor
    · unfold mkDfSetCols; rw [if_neg hcw]
    · unfold mkDfWithCols; simp [hie, hcw]

/-- Witness for C6 at a concrete two-column row list against the
five-name payments schema. -/
theorem tabular_result_arity_c6_witness :
    (∀ r ∈ [["1", "2"]], r.length = 2) ∧
    ((∀ df, mkDfSetCols [["1", "2"]] paymentCols = some df →
      ∀ r ∈ df.rows, r.length = paymentCols.length) ∧
     (∀ df, mkDfWithCols [["1", "2"]] paymentCols = some df →
      ∀ r ∈ df.rows, r.length = paymentCols.length) ∧
     ([["1", "2"]] ≠ ([] : List (List String)) → 2 ≠ paymentCols.length →
      mkDfSetCols [["1", "2"]] paymentCols = none ∧
      mkDfWithCols [["1", "2"]] paymentCols = none)) :=
  ⟨by decide, tabular_result_arity_c6 [["1", "2"]] paymentCols 2 (by decide)⟩

lemma splitOnChar_ne_nil (sep : Char) :
    ∀ s : List Char, splitOnChar sep s ≠ [] := by
  intro s
  induction s with
  | nil => simp [splitOnChar]
  | cons c cs ih =>
    rw [splitOnChar]
    split
    next heq => exact absurd heq ih
    next p ps heq => by_cases hc : c = sep <;> simp [hc]

lemma splitOnChar_not_mem (sep : Char) :
    ∀ s : List Char, sep ∉ s → splitOnChar sep s = [s] := by
  intro s
  induction s with
  | nil => intro _; rfl
  | cons c cs ih =>
    intro h
    have hc : c ≠ sep := fun he => h (he ▸ List.mem_cons_self _ _)
    have hcs : sep ∉ cs := fun hm => h (List.mem_cons_of_mem _ hm)
    rw [splitOnChar, ih hcs]
    simp [hc]

lemma splitOnChar_append (sep : Char) :
    ∀ (l rest : List Char), sep ∉ l →
      splitOnChar sep (l ++ sep :: rest) = l :: splitOnChar sep rest := by
  intro l
  induction l with
  | nil =>
    intro rest _
    rcases hs : splitOnChar sep rest with _ | ⟨p, ps⟩
    · exact absurd hs (splitOnChar_ne_nil sep rest)
    · rw [List.nil_append, splitOnChar, hs]
      simp
  | cons c cs ih =>
    intro rest h
    have hc : c ≠ sep := fun he => h (he ▸ List.mem_cons_self _ _)
    have hcs : sep ∉ cs := fun hm => h (List.mem_cons_of_mem _ hm)
    rw [List.cons_append, splitOnChar, ih rest hcs]
    simp [hc]

lemma splitOnChar_joinChar (sep : Char) :
    ∀ xs : List (List Char), xs ≠ [] → (∀ x ∈ xs, sep ∉ x) →
      splitOnChar sep (joinChar sep xs) = xs := by
  intro xs
  induction xs with
  | nil => intro h; exact absurd rfl h
  | cons x ys ih =>
    intro _ hall
    cases ys with
    | nil => exact splitOnChar_not_mem sep x (hall x (List.mem_cons_self _ _))
    | cons y zs =>
      rw [joinChar, splitOnChar_append sep x _ (hall x (List.mem_cons_self _ _)),
          ih (by simp) (fun z hz => hall z (List.mem_cons_of_mem _ hz))]

lemma splitOnChar_unlines :
    ∀ ls : List (List Char), (∀ l ∈ ls, '\n' ∉ l) →
      splitOnChar '\n' (unlinesChar ls) = ls ++ [[]] := by
  intro ls
  induction ls with
  | nil => intro _; rfl
  | cons l ts ih =>
    intro hall
    show splitOnChar '\n' (l ++ '\n' :: unlinesChar ts) = (l :: ts) ++ [[]]
    rw [splitOnChar_append _ _ _ (hall l (List.mem_cons_self _ _)),
        ih (fun x hx => hall x (List.mem_cons_of_mem _ hx))]
    rfl

lemma mem_joinChar (sep : Char) (c : Char) :
    ∀ xs : List (List Char), c ∈ joinChar sep xs →
      c = sep ∨ ∃ x ∈ xs, c ∈ x := by
  intro xs
  induction xs with
  | nil => intro h; simp [joinChar] at h
  | cons x ys ih =>
    cases ys with
    | nil =>
      intro h
      right
      exact ⟨x, List.mem_cons_self _ _, h⟩
    | cons y zs =>
      intro h
      rw [joinChar] at h
      rcases List.mem_append.mp h with h | h
      · right; exact ⟨x, List.mem_cons_self _ _, h⟩
      rcases List.mem_cons.mp h with h | h
      · left; exact h
      rcases ih h with h | ⟨z, hz, hcz⟩
      · left; exact h
      · right; exact ⟨z, List.mem_cons_of_mem _ hz, hcz⟩

lemma csvField_clean (s : List Char) (h : cleanCell s) : csvField s = s := by
  unfold csvField
  rw [if_neg h]

lemma map_csvField_clean (row : List (List Char))
    (h : ∀ c ∈ row, cleanCell c) : row.map csvField = row := by
  induction row with
  | nil => rfl
  | cons a ts ih =>
    rw [List.map_cons, csvField_clean a (h a (List.mem_cons_self _ _)),
        ih (fun c hc => h c (List.mem_cons_of_mem _ hc))]

lemma csvLine_no_newline (cells : List (List Char))
    (h : ∀ c ∈ cells, cleanCell c) : '\n' ∉ csvLine cells := by
  intro hmem
  unfold csvLine at hmem
  rcases mem_joinChar '\t' '\n' _ hmem with he | ⟨x, hx, hcx⟩
  · exact absurd he (by decide)
  rcases List.mem_map.mp hx with ⟨c0, hc0, rfl⟩
  rw [csvField_clean c0 (h c0 hc0)] at hcx
  exact (h c0 hc0) (Or.inr (Or.inl hcx))

/-- C4 (amended): for every Tabular Result whose cell strings contain no
tab, newline, carriage return or double quote and whose rows are nonempty,
writing it with `to_csv(sep='\t', index=False)` and re-reading the file —
dropping the header line and splitting each remaining line on tab —
reproduces the rows' string representations exactly and in the original
order. -/
theorem txt_roundtrip_c4 (header : List (List Char))
    (rows : List (List (List Char)))
    (hh : ∀ c ∈ header, cleanCell c)
    (hr : ∀ row ∈ rows, ∀ c ∈ row, cleanCell c)
    (hne : ∀ row ∈ rows, row ≠ []) :
    readBack (toCsvContent header rows) = rows := by
  have hlines : ∀ l ∈ csvLine header :: rows.map csvLine, '\n' ∉ l := by
    intro l hl
    rcases List.mem_cons.mp hl with h | h
    · subst h; exact csvLine_no_newline header hh
    · rcases List.mem_map.mp h with ⟨row, hrow, rfl⟩
      exact csvLine_no_newline row (hr row hrow)
  have hsplit : ∀ rs : List (List (List Char)),
      (∀ row ∈ rs, ∀ c ∈ row, cleanCell c) → (∀ row ∈ rs, row ≠ []) →
      (rs.map csvLine).map (splitOnChar '\t') = rs := by
    intro rs
    induction rs with
    | nil => intro _ _; rfl
    | cons row ts ih =>
      intro hc hn
      rw [List.map_cons, List.map_cons]
      congr 1
      · unfold csvLine
        rw [map_csvField_clean row (hc row (List.mem_cons_self _ _))]
        apply splitOnChar_joinChar
        · exact hn row (List.mem_cons_self _ _)
        · intro x hx ht
          exact (hc row (List.mem_cons_self _ _) x hx) (Or.inl ht)
      · exact ih (fun r h => hc r (List.mem_cons_of_mem _ h))
          (fun r h => hn r (List.mem_cons_of_mem _ h))
  unfold readBack toCsvContent fileLines
  rw [splitOnChar_unlines _ hlines, List.getLast?_concat, if_pos rfl,
      List.dropLast_concat]
  show ((rows.map csvLine).map (splitOnChar '\t')) = rows
  exact hsplit rows hr hne

/-- Witness for C4 on a concrete frame with two rows of two clean
cells. -/
theorem txt_roundtrip_c4_witness :
    (∀ c ∈ [['c'], ['d']], cleanCell c) ∧
    (∀ row ∈ [[['a'], ['b']], [['e'], ['f']]], ∀ c ∈ row, cleanCell c) ∧
    (∀ row ∈ [[['a'], ['b']], [['e'], ['f']]], row ≠ []) ∧
    readBack (toCsvContent [['c'], ['d']] [[['a'], ['b']], [['e'], ['f']]]) =
      [[['a'], ['b']], [['e'], ['f']]] :=
  ⟨by decide, by decide, by decide,
   txt_roundtrip_c4 [['c'], ['d']] [[['a'], ['b']], [['e'], ['f']]]
     (by decide) (by decide) (by decide)⟩

/-- C4 counterexample: a row whose single cell's string representation
contains a tab is written quoted by `to_csv`, so re-reading the file and
splitting the data line on tab does not reproduce the original row — the
round trip fails for this Tabular Result. -/
theorem c4_counterexample :
    readBack (toCsvContent [['c']] [[['a', '\t', 'b']]]) ≠
      [[['a', '\t', 'b']]] := by decide


/-- C5: Tabular Writer (File) on the single payments row
(500, 0.99, 11.99, 4955.01, 9.91) with header
Records/Minimum/Maximum/Total/Average, directory "reports" and file name
"payment_summary.txt" returns the path "reports/payment_summary.txt" and
writes a file of exactly two lines: the tab-joined header and the
tab-joined row values. -/
theorem payment_summary_file_c5 :
    ∃ content : List Char,
      write_local_txt_output ⟨paymentHeaderCells, [paymentRowCells]⟩
          ("reports") ("payment_summary.txt") true =
        some (("reports/payment_summary.txt"), content) ∧
      fileLines content =
        [joinChar '\t' paymentHeaderCells, joinChar '\t' paymentRowCells] ∧
      (fileLines content).length = 2 :=
  ⟨toCsvContent paymentHeaderCells [paymentRowCells],
   by decide, by decide, by decide⟩

lemma fsLookup_dir (es : List (String × Node)) (n : String)
    (qs : List String) :
    fsLookup (Node.dir es) (n :: qs) =
      match List.find? (fun e => e.1 == n) es with
      | some e => fsLookup e.2 qs
      | none => none := rfl

lemma find?_filter_ne (n name : String) (hne : n ≠ name) :
    ∀ es : List (String × Node),
      List.find? (fun e => e.1 == n) (es.filter (fun e => e.1 != name)) =
        List.find? (fun e => e.1 == n) es := by
  intro es
  induction es with
  | nil => rfl
  | cons e ts ih =>
    by_cases he : e.1 = name
    · have h1 : ¬((fun x : String × Node => x.1 != name) e = true) := by
        simp [he]
      have h2 : ¬((fun x : String × Node => x.1 == n) e = true) := by
        simp [he]
        exact fun hc => hne hc.symm
      rw [@List.filter_cons_of_neg _ (fun x : String × Node => x.1 != name)
            e ts h1,
          @List.find?_cons_of_neg _ (fun x : String × Node => x.1 == n)
            e ts h2, ih]
    · have h1 : ((fun x : String × Node => x.1 != name) e = true) := by
        simp [he]
      rw [@List.filter_cons_of_pos _ (fun x : String × Node => x.1 != name)
            e ts h1]
      by_cases hn : e.1 = n
      · have h2 : ((fun x : String × Node => x.1 == n) e = true) := by
          simp [hn]
        rw [@List.find?_cons_of_pos _ (fun x : String × Node => x.1 == n)
              e (ts.filter (fun x => x.1 != name)) h2,
            @List.find?_cons_of_pos _ (fun x : String × Node => x.1 == n)
              e ts h2]
      · have h2 : ¬((fun x : String × Node => x.1 == n) e = true) := by
          simp [hn]
        rw [@List.find?_cons_of_neg _ (fun x : String × Node => x.1 == n)
              e (ts.filter (fun x => x.1 != name)) h2,
            @List.find?_cons_of_neg _ (fun x : String × Node => x.1 == n)
              e ts h2, ih]

lemma find?_map_entry (n name : String) (g : Node → Node) :
    ∀ es : List (String × Node),
      List.find? (fun e => e.1 == n)
          (es.map (fun e => if e.1 = name then (e.1, g e.2) else e)) =
        Option.map
          (fun e : String × Node => if e.1 = name then (e.1, g e.2) else e)
          (List.find? (fun e => e.1 == n) es) := by
  intro es
  induction es with
  | nil => rfl
  | cons e ts ih =>
    rw [List.map_cons]
    have hfst : ((if e.1 = name then (e.1, g e.2) else e).1) = e.1 := by
      by_cases he : e.1 = name <;> simp [he]
    by_cases hn : e.1 = n
    · have h2 : ((fun x : String × Node => x.1 == n)
          (if e.1 = name then (e.1, g e.2) else e) = true) := by
        show (((if e.1 = name then (e.1, g e.2) else e).1) == n) = true
        rw [hfst]
        simp [hn]
      have h3 : ((fun x : String × Node => x.1 == n) e = true) := by
        simp [hn]
      rw [@List.find?_cons_of_pos _ (fun x : String × Node => x.1 == n)
            (if e.1 = name then (e.1, g e.2) else e)
            (ts.map (fun x => if x.1 = name then (x.1, g x.2) else x)) h2,
          @List.find?_cons_of_pos _ (fun x : String × Node => x.1 == n)
            e ts h3]
      rfl
    · have h2 : ¬((fun x : String × Node => x.1 == n)
          (if e.1 = name then (e.1, g e.2) else e) = true) := by
        show ¬(((if e.1 = name then (e.1, g e.2) else e).1) == n) = true
        rw [hfst]
        simp [hn]
      have h3 : ¬((fun x : String × Node => x.1 == n) e = true) := by
        simp [hn]
      rw [@List.find?_cons_of_neg _ (fun x : String × Node => x.1 == n)
            (if e.1 = name then (e.1, g e.2) else e)
            (ts.map (fun x => if x.1 = name then (x.1, g x.2) else x)) h2,
          @List.find?_cons_of_neg _ (fun x : String × Node => x.1 == n)
            e ts h3, ih]

lemma pathUnder_self_append (r : List String) :
    ∀ p : List String, pathUnder p (p ++ r) = true := by
  intro p
  induction p with
  | nil => rfl
  | cons a ps ih => simp [pathUnder, ih]

lemma pathUnder_of_append_left (x : String) :
    ∀ p q : List String, pathUnder (p ++ [x]) q = true →
      pathUnder p q = true := by
  intro p
  induction p with
  | nil => intro q _; rfl
  | cons a ps ih =>
    intro q h
    cases q with
    | nil => exact absurd h (by simp [pathUnder])
    | cons b qs =>
      simp [pathUnder] at h ⊢
      exact ⟨h.1, ih qs h.2⟩

lemma pathUnder_append_right (x : String) :
    ∀ q p : List String, pathUnder q (p ++ [x]) = true →
      pathUnder q p = true ∨ q = p ++ [x] := by
  intro q
  induction q with
  | nil => intro p _; left; rfl
  | cons a qs ih =>
    intro p h
    cases p with
    | nil =>
      cases qs with
      | nil =>
        simp [pathUnder] at h
        right
        simp [h]
      | cons b bs => simp [pathUnder] at h
    | cons c ps =>
      have h' : a = c ∧ pathUnder qs (ps ++ [x]) = true := by
        simpa [pathUnder] using h
      rcases ih ps h'.2 with h2 | h2
      · left
        simp [pathUnder, h'.1, h2]
      · right
        rw [List.cons_append, h2, h'.1]

lemma pathUnder_append_leaf (a b : String) :
    ∀ p : List String, pathUnder (p ++ [a]) (p ++ [b]) = (a == b) := by
  intro p
  induction p with
  | nil => simp [pathUnder]
  | cons c ps ih => simp [pathUnder, ih]

lemma fsLookup_removeAt_indep :
    ∀ (p : List String) (root : Node) (q : List String),
      pathUnder p q = false → pathUnder q p = false →
      fsLookup (removeAt root p) q = fsLookup root q := by
  intro p
  induction p with
  | nil => intro root q hpq hqp; rfl
  | cons name rest ih =>
    intro root q hpq hqp
    cases root with
    | file => rfl
    | link t => rfl
    | dir es =>
      cases q with
      | nil => simp [pathUnder] at hqp
      | cons n qs =>
        cases rest with
        | nil =>
          have hnn : n ≠ name := by
            intro he
            subst he
            simp [pathUnder] at hpq
          show fsLookup (Node.dir (es.filter (fun e => e.1 != name)))
              (n :: qs) = fsLookup (Node.dir es) (n :: qs)
          rw [fsLookup_dir, fsLookup_dir, find?_filter_ne n name hnn]
        | cons r rs =>
          show fsLookup (Node.dir (es.map (fun e =>
              if e.1 = name then (e.1, removeAt e.2 (r :: rs)) else e)))
              (n :: qs) = fsLookup (Node.dir es) (n :: qs)
          rw [fsLookup_dir, fsLookup_dir,
              find?_map_entry n name (fun x => removeAt x (r :: rs))]
          cases hf : List.find? (fun e => e.1 == n) es with
          | none => rfl
          | some e =>
            have hen : e.1 = n := by simpa using List.find?_some hf
            show fsLookup
                (if e.1 = name then (e.1, removeAt e.2 (r :: rs)) else e).2
                qs = fsLookup e.2 qs
            by_cases hename : e.1 = name
            · rw [if_pos hename]
              have hnm : name = n := by rw [← hename, hen]
              subst hnm
              have hpq' : pathUnder (r :: rs) qs = false := by
                simpa [pathUnder] using hpq
              have hqp' : pathUnder qs (r :: rs) = false := by
                simpa [pathUnder] using hqp
              exact ih e.2 qs hpq' hqp'
            · rw [if_neg hename]

lemma fsLookup_nil (n : Node) : fsLookup n [] = some n := by
  cases n <;> rfl

lemma fsLookup_removeAt_child :
    ∀ (folder : List String) (root : Node) (name : String)
      (es : List (String × Node)),
      fsLookup root folder = some (Node.dir es) →
      fsLookup (removeAt root (folder ++ [name])) folder =
        some (Node.dir (es.filter (fun e => e.1 != name))) := by
  intro folder
  induction folder with
  | nil =>
    intro root name es h
    rw [fsLookup_nil] at h
    have h' : root = Node.dir es := Option.some.inj h
    subst h'
    rfl
  | cons f fs ih =>
    intro root name es h
    cases root with
    | file => exact Option.noConfusion h
    | link t => exact Option.noConfusion h
    | dir es0 =>
      rw [fsLookup_dir] at h
      have hrem : removeAt (Node.dir es0) ((f :: fs) ++ [name]) =
          Node.dir (es0.map (fun x =>
            if x.1 = f then (x.1, removeAt x.2 (fs ++ [name])) else x)) := by
        cases fs with
        | nil => rfl
        | cons a as => rfl
      rw [hrem, fsLookup_dir,
          find?_map_entry f f (fun x => removeAt x (fs ++ [name]))]
      cases hf : List.find? (fun e => e.1 == f) es0 with
      | none =>
        rw [hf] at h
        exact Option.noConfusion h
      | some e =>
        rw [hf] at h
        have hef : e.1 = f := by simpa using List.find?_some hf
        show fsLookup
            (if e.1 = f then (e.1, removeAt e.2 (fs ++ [name])) else e).2
            fs = some (Node.dir (es.filter (fun x => x.1 != name)))
        rw [if_pos hef]
        exact ih e.2 name es h

lemma fsLookup_append_child :
    ∀ (folder : List String) (root : Node) (name : String)
      (es : List (String × Node)),
      fsLookup root folder = some (Node.dir es) →
      fsLookup root (folder ++ [name]) =
        Option.map Prod.snd (List.find? (fun e => e.1 == name) es) := by
  intro folder
  induction folder with
  | nil =>
    intro root name es h
    rw [fsLookup_nil] at h
    have h' : root = Node.dir es := Option.some.inj h
    subst h'
    rw [List.nil_append, fsLookup_dir]
    cases hf : List.find? (fun e => e.1 == name) es with
    | none => rfl
    | some e => exact fsLookup_nil e.2
  | cons f fs ih =>
    intro root name es h
    cases root with
    | file => exact Option.noConfusion h
    | link t => exact Option.noConfusion h
    | dir es0 =>
      rw [fsLookup_dir] at h
      rw [List.cons_append, fsLookup_dir]
      cases hf : List.find? (fun e => e.1 == f) es0 with
      | none =>
        rw [hf] at h
        exact Option.noConfusion h
      | some e =>
        rw [hf] at h
        exact ih e.2 name es h

lemma clearStep_eq_removeAt (folder : List String) (root : Node)
    (name : String) (c : Node)
    (h : fsLookup root (folder ++ [name]) = some c) :
    clearStep folder root name = removeAt root (folder ++ [name]) := by
  unfold clearStep
  rw [h]
  cases c <;> rfl

lemma clear_fold_empties :
    ∀ (es : List (String × Node)) (root : Node) (folder : List String),
      fsLookup root folder = some (Node.dir es) →
      (es.map Prod.fst).Nodup →
      fsLookup (List.foldl (clearStep folder) root (es.map Prod.fst))
        folder = some (Node.dir []) := by
  intro es
  induction es with
  | nil => intro root folder h _; exact h
  | cons e ts ih =>
    intro root folder h hnd
    rw [List.map_cons, List.foldl_cons]
    have hfind : List.find? (fun x => x.1 == e.1) (e :: ts) = some e :=
      List.find?_cons_of_pos _ (by simp)
    have hchild : fsLookup root (folder ++ [e.1]) = some e.2 := by
      rw [fsLookup_append_child folder root e.1 (e :: ts) h, hfind]
      rfl
    rw [clearStep_eq_removeAt folder root e.1 e.2 hchild]
    have hrem := fsLookup_removeAt_child folder root e.1 (e :: ts) h
    have hne : e.1 ∉ ts.map Prod.fst := (List.nodup_cons.mp hnd).1
    have hfilter : (e :: ts).filter (fun x => x.1 != e.1) = ts := by
      rw [@List.filter_cons_of_neg _ (fun x : String × Node => x.1 != e.1)
            e ts (by simp)]
      apply List.filter_eq_self.mpr
      intro a ha
      simp
      intro hc
      exact hne (hc ▸ List.mem_map_of_mem Prod.fst ha)
    rw [hfilter] at hrem
    exact ih (removeAt root (folder ++ [e.1])) folder hrem
      (List.nodup_cons.mp hnd).2

lemma clear_fold_frame :
    ∀ (names : List String) (root : Node) (folder q : List String),
      pathUnder folder q = false → pathUnder q folder = false →
      fsLookup (List.foldl (clearStep folder) root names) q =
        fsLookup root q := by
  intro names
  induction names with
  | nil => intro root folder q _ _; rfl
  | cons n ns ih =>
    intro root folder q hfq hqf
    rw [List.foldl_cons, ih (clearStep folder root n) folder q hfq hqf]
    have hp1 : pathUnder (folder ++ [n]) q = false := by
      cases hpu : pathUnder (folder ++ [n]) q with
      | false => rfl
      | true =>
        exact absurd (pathUnder_of_append_left n folder q hpu)
          (by simp [hfq])
    have hp2 : pathUnder q (folder ++ [n]) = false := by
      cases hpu : pathUnder q (folder ++ [n]) with
      | false => rfl
      | true =>
        rcases pathUnder_append_right n q folder hpu with h2 | h2
        · exact absurd h2 (by simp [hqf])
        · subst h2
          exact absurd (pathUnder_self_append [n] folder) (by simp [hfq])
    cases hlk : fsLookup root (folder ++ [n]) with
    | none => simp [clearStep, hlk]
    | some c =>
      rw [clearStep_eq_removeAt folder root n c hlk]
      exact fsLookup_removeAt_indep (folder ++ [n]) root q hp1 hp2

/-- C9: for a folder whose children are any mix of files, symbolic links
and nested directories with distinct names, after `clear_folder` completes
with all deletions succeeding the folder itself still exists and is empty,
and every other entry of the parent directory is untouched. -/
theorem clear_folder_c9 (root : Node) (pp : List String) (fname : String)
    (es : List (String × Node))
    (hlook : fsLookup root (pp ++ [fname]) = some (Node.dir es))
    (hnd : (es.map Prod.fst).Nodup) :
    fsLookup (clear_folder root (pp ++ [fname])) (pp ++ [fname]) =
      some (Node.dir []) ∧
    ∀ s : String, s ≠ fname →
      fsLookup (clear_folder root (pp ++ [fname])) (pp ++ [s]) =
        fsLookup root (pp ++ [s]) := by
  constructor
  · unfold clear_folder listdir
    rw [hlook]
    exact clear_fold_empties es root (pp ++ [fname]) hlook hnd
  · intro s hs
    unfold clear_folder listdir
    rw [hlook]
    refine clear_fold_frame (es.map Prod.fst) root (pp ++ [fname])
      (pp ++ [s]) ?_ ?_
    · rw [pathUnder_append_leaf]
      exact beq_eq_false_iff_ne.mpr (fun h => hs h.symm)
    · rw [pathUnder_append_leaf]
      exact beq_eq_false_iff_ne.mpr hs


/-- Witness for C9 on a concrete tree holding a file, a symbolic link to
a sibling directory, and a nested directory. -/
theorem clear_folder_c9_witness :
    (fsLookup sampleRoot (["home"] ++ ["reports"]) =
      some (Node.dir sampleEntries)) ∧
    ((sampleEntries.map Prod.fst).Nodup) ∧
    (fsLookup (clear_folder sampleRoot (["home"] ++ ["reports"]))
        (["home"] ++ ["reports"]) = some (Node.dir []) ∧
     ∀ s : String, s ≠ "reports" →
       fsLookup (clear_folder sampleRoot (["home"] ++ ["reports"]))
           (["home"] ++ [s]) =
         fsLookup sampleRoot (["home"] ++ [s])) :=
  ⟨rfl, by decide,
   clear_folder_c9 sampleRoot ["home"] ("reports") sampleEntries rfl
     (by decide)⟩

/-- C10: a direct child of the target folder that is a symbolic link —
including one whose target is a directory elsewhere in the tree — is
removed by the link branch as the link itself only: after `clear_folder`
the link binding is gone while the target directory's contents are left
unchanged. -/
theorem clear_folder_c10 (root : Node) (folder t : List String)
    (lname : String) (es cs : List (String × Node))
    (hlook : fsLookup root folder = some (Node.dir es))
    (hnd : (es.map Prod.fst).Nodup)
    (hmem : (lname, Node.link t) ∈ es)
    (htgt : fsLookup root t = some (Node.dir cs))
    (h1 : pathUnder folder t = false) (h2 : pathUnder t folder = false) :
    fsLookup (clear_folder root folder) t = some (Node.dir cs) ∧
    fsLookup (clear_folder root folder) (folder ++ [lname]) = none := by
  have hempty : fsLookup (clear_folder root folder) folder =
      some (Node.dir []) := by
    unfold clear_folder listdir
    rw [hlook]
    exact clear_fold_empties es root folder hlook hnd
  constructor
  · unfold clear_folder listdir
    rw [hlook]
    exact (clear_fold_frame (es.map Prod.fst) root folder t h1 h2).trans htgt
  · rw [fsLookup_append_child folder _ lname [] hempty]
    rfl

/-- Witness for C10 on the sample tree, whose link points at a sibling
directory of the cleared folder. -/
theorem clear_folder_c10_witness :
    (fsLookup sampleRoot ["home", "reports"] =
      some (Node.dir sampleEntries)) ∧
    ((sampleEntries.map Prod.fst).Nodup) ∧
    (("ln", Node.link ["home", "d"]) ∈ sampleEntries) ∧
    (fsLookup sampleRoot ["home", "d"] =
      some (Node.dir [("y", Node.file)])) ∧
    (pathUnder ["home", "reports"] ["home", "d"] = false) ∧
    (pathUnder ["home", "d"] ["home", "reports"] = false) ∧
    (fsLookup (clear_folder sampleRoot ["home", "reports"]) ["home", "d"] =
        some (Node.dir [("y", Node.file)]) ∧
     fsLookup (clear_folder sampleRoot ["home", "reports"])
        (["home", "reports"] ++ ["ln"]) = none) :=
  ⟨rfl, by decide, by simp [sampleEntries], rfl, rfl, rfl,
   clear_folder_c10 sampleRoot ["home", "reports"] ["home", "d"] ("ln")
     sampleEntries [("y", Node.file)] rfl (by decide)
     (by simp [sampleEntries]) rfl rfl rfl⟩
